import Mathlib

/-!
Verification development for the real-time audio stream segmentation and
speaker-turn consolidation pipeline of the `ai_meeting` repository.

The embedding translates, at the level of observable data flow:

* `AudioChunker.process_audio_stream` (backend/audio_processor.py, lines
  146-185): buffering, fixed-size window extraction, silence filtering and
  the per-window `(start_time, end_time)` computation — including the fact
  that the source computes `start_time` from the length of the buffer that
  REMAINS after trimming (`start_time = buffer_size_after_trim / sample_rate`).
* the per-packet websocket loop of `stream_audio` (backend/main.py, lines
  1667-1786): the byte-length validation, the absolute-time bookkeeping via
  `meeting_audio_time`, the recognizer invocation with its exception
  containment, the in-line turn consolidation (merge by same speaker and
  bounded gap) and the persist/push emission of finalized turns.
* the disconnect handler of `stream_audio` (backend/main.py, lines
  1792-1889): pushing the pending segment, then processing the speaker
  identifier's internal buffer.

Audio samples and times are modelled as rationals (the source uses Python
floats; all properties at stake are exact-arithmetic properties of the
control flow, not rounding properties).  The external recognizer
(`speaker_identifier.process_audio_chunk`) is an opaque parameter returning
`Option (List RawSegment)`; `none` models a raised exception.  Database
commit outcomes are an oracle `RawSegment → Bool`.
-/

namespace AiMeeting

/-- Maximum of the absolute values of a list of samples (`np.max(np.abs(w))`
for a nonempty window; the fold base `0` is never the maximum on a nonempty
list of absolute values). -/
def maxAbs (w : List ℚ) : ℚ := (w.map (fun x => |x|)).foldr max 0

/-- Silence test of `AudioChunker.is_silence`:
`np.max(np.abs(audio_chunk)) < self.silence_threshold`. -/
def is_silence (threshold : ℚ) (w : List ℚ) : Bool :=
  decide (maxAbs w < threshold)

/-- One `(window, start_time, end_time)` tuple yielded by
`process_audio_stream`. -/
structure Yielded where
  window : List ℚ
  start_time : ℚ
  end_time : ℚ
deriving DecidableEq, Repr

/-- Fuel-indexed translation of the inner `while len(self.buffer) >=
self.sample_rate * self.chunk_duration` loop of
`AudioChunker.process_audio_stream`.  Each iteration takes one window of
`chunkSize` samples off the front of the buffer, computes
`start_time = buffer_size_after_trim / sample_rate` and
`end_time = start_time + len(current_chunk) / sample_rate` exactly as the
source does, records the consumed window, and yields it unless it is
silence.  Returns `(yielded tuples, consumed windows, remaining buffer)`.
The fuel only serves structural termination; `drainLoop` supplies enough of
it (`0 < chunkSize` is part of the guard: with `chunkSize = 0` the source
loop would never terminate, a configuration never used). -/
def drainFuel (sampleRate chunkSize : ℕ) (threshold : ℚ) :
    ℕ → List ℚ → List Yielded × List (List ℚ) × List ℚ
  | 0, buffer => ([], [], buffer)
  | fuel + 1, buffer =>
    if 0 < chunkSize ∧ chunkSize ≤ buffer.length then
      let current := buffer.take chunkSize
      let rest := buffer.drop chunkSize
      let start : ℚ := (rest.length : ℚ) / (sampleRate : ℚ)
      let stop : ℚ := start + (current.length : ℚ) / (sampleRate : ℚ)
      let r := drainFuel sampleRate chunkSize threshold fuel rest
      if is_silence threshold current then
        (r.1, current :: r.2.1, r.2.2)
      else
        (⟨current, start, stop⟩ :: r.1, current :: r.2.1, r.2.2)
    else ([], [], buffer)

/-- The window-extraction loop run to completion on a buffer. -/
def drainLoop (sampleRate chunkSize : ℕ) (threshold : ℚ) (buffer : List ℚ) :
    List Yielded × List (List ℚ) × List ℚ :=
  drainFuel sampleRate chunkSize threshold buffer.length buffer

/-- Translation of `AudioChunker.process_audio_stream(audio_chunks)`:
for each chunk of the argument list, append it to the internal buffer and
run the extraction loop; yields accumulate across chunks and the buffer
persists.  `buffer` is the chunker's buffer on entry (`self.buffer`). -/
def process_audio_stream (sampleRate chunkSize : ℕ) (threshold : ℚ)
    (buffer : List ℚ) : List (List ℚ) → List Yielded × List (List ℚ) × List ℚ
  | [] => ([], [], buffer)
  | c :: cs =>
    let r1 := drainLoop sampleRate chunkSize threshold (buffer ++ c)
    let r2 := process_audio_stream sampleRate chunkSize threshold r1.2.2 cs
    (r1.1 ++ r2.1, r1.2.1 ++ r2.2.1, r2.2.2)

/-- One recognizer output segment, the dict
`{speaker, start_time, end_time, text}` used throughout `stream_audio`. -/
structure RawSegment where
  speaker : String
  start_time : ℚ
  end_time : ℚ
  text : String
deriving DecidableEq, Repr

/-- One iteration of the `for segment in newly_processed_segments` merge
loop of `stream_audio` (main.py lines 1726-1737).  State is
`(finalized_segments, current_merged_segment)`. -/
def consolidateStep (tol : ℚ) (acc : List RawSegment × Option RawSegment)
    (s : RawSegment) : List RawSegment × Option RawSegment :=
  match acc.2 with
  | none => (acc.1, some s)
  | some cur =>
    if s.speaker = cur.speaker ∧ s.start_time - cur.end_time ≤ tol then
      (acc.1, some { cur with text := cur.text ++ " " ++ s.text,
                              end_time := s.end_time })
    else (acc.1 ++ [cur], some s)

/-- The whole merge loop for one window's segment list: starts from the
carried `last_processed_segment`, returns
`(finalized_segments, last_processed_segment)`. -/
def consolidate (tol : ℚ) (pending : Option RawSegment)
    (segs : List RawSegment) : List RawSegment × Option RawSegment :=
  segs.foldl (consolidateStep tol) ([], pending)

/-- Observable actions of the session loop. -/
inductive Event where
  | recognized (window : List ℚ) (absStart : ℚ)
  | dbSaved (t : RawSegment)
  | dbRollback (t : RawSegment)
  | pushed (t : RawSegment)
deriving DecidableEq, Repr

/-- Persist-then-push of one finalized segment (main.py lines 1750-1774):
the database commit is attempted, a failure is rolled back, and the
websocket push happens in either case. -/
def persistPush (dbOk : RawSegment → Bool) (t : RawSegment) : List Event :=
  (if dbOk t then [Event.dbSaved t] else [Event.dbRollback t]) ++
    [Event.pushed t]

/-- Emission of a list of finalized segments, in order. -/
def emitTurns (dbOk : RawSegment → Bool) (fs : List RawSegment) : List Event :=
  (fs.map (persistPush dbOk)).flatten

/-- Recognizer interface: `process_audio_chunk(window, abs_start_time)`.
`none` models a raised exception (or the invalid-state introspection
branches), which `stream_audio` turns into an empty segment list. -/
abbrev Recognizer := List ℚ → ℚ → Option (List RawSegment)

/-- Session-loop state carried across packets: the chunker's buffer,
`meeting_audio_time` and `last_processed_segment`. -/
structure SessionState where
  buffer : List ℚ
  meeting_audio_time : ℚ
  last_processed_segment : Option RawSegment
deriving DecidableEq, Repr

/-- Session state at `stream_audio` entry. -/
def initialSession : SessionState := ⟨[], 0, none⟩

/-- Body of the `async for processed_chunk, chunk_start_time, chunk_end_time`
loop (main.py lines 1687-1782) for one yielded window: take
`abs_chunk_start_time = meeting_audio_time`, invoke the recognizer (an
exception yields zero segments), run the merge loop, emit the finalized
segments, and advance `meeting_audio_time` by
`chunk_end_time - chunk_start_time`.  State is
`(meeting_audio_time, last_processed_segment)`. -/
def processWindow (tol : ℚ) (recognize : Recognizer)
    (dbOk : RawSegment → Bool) (st : ℚ × Option RawSegment) (y : Yielded) :
    (ℚ × Option RawSegment) × List Event :=
  let absStart := st.1
  let segs := (recognize y.window absStart).getD []
  let r := consolidate tol st.2 segs
  ((st.1 + (y.end_time - y.start_time), r.2),
   Event.recognized y.window absStart :: emitTurns dbOk r.1)

/-- The window loop over all windows yielded for one packet. -/
def processWindows (tol : ℚ) (recognize : Recognizer)
    (dbOk : RawSegment → Bool) :
    ℚ × Option RawSegment → List Yielded → (ℚ × Option RawSegment) × List Event
  | st, [] => (st, [])
  | st, y :: ys =>
    let r := processWindow tol recognize dbOk st y
    let r2 := processWindows tol recognize dbOk r.1 ys
    (r2.1, r.2 ++ r2.2)

/-- Sample-level handling of one well-formed packet: feed the decoded
samples through `chunker.process_audio_stream([audio_chunk])` and run the
window loop on every yielded window. -/
def feedSamples (sampleRate chunkSize : ℕ) (threshold tol : ℚ)
    (recognize : Recognizer) (dbOk : RawSegment → Bool)
    (st : SessionState) (samples : List ℚ) : SessionState × List Event :=
  let d := drainLoop sampleRate chunkSize threshold (st.buffer ++ samples)
  let r := processWindows tol recognize dbOk
    (st.meeting_audio_time, st.last_processed_segment) d.1
  (⟨d.2.2, r.1.1, r.1.2⟩, r.2)

/-- Per-packet handling (main.py lines 1670-1782): a packet whose byte
length is not a multiple of 4 is skipped entirely (`continue`); otherwise
the bytes are decoded to float32 samples (`decode` abstracts
`np.frombuffer(data, dtype=np.float32)`) and processed. -/
def handlePacket (sampleRate chunkSize : ℕ) (threshold tol : ℚ)
    (recognize : Recognizer) (dbOk : RawSegment → Bool)
    (decode : List ℕ → List ℚ) (st : SessionState) (data : List ℕ) :
    SessionState × List Event :=
  if data.length % 4 ≠ 0 then (st, [])
  else feedSamples sampleRate chunkSize threshold tol recognize dbOk st
    (decode data)

/-- The receive loop over a list of packets. -/
def runPackets (sampleRate chunkSize : ℕ) (threshold tol : ℚ)
    (recognize : Recognizer) (dbOk : RawSegment → Bool)
    (decode : List ℕ → List ℚ) :
    SessionState → List (List ℕ) → SessionState × List Event
  | st, [] => (st, [])
  | st, d :: ds =>
    let r := handlePacket sampleRate chunkSize threshold tol recognize dbOk
      decode st d
    let r2 := runPackets sampleRate chunkSize threshold tol recognize dbOk
      decode r.1 ds
    (r2.1, r.2 ++ r2.2)

/-- Internal buffer state of the speaker identifier as consulted by the
disconnect handler (`audio_buffer`, `buffer_start_time`). -/
structure RecognizerState where
  audio_buffer : List ℚ
  buffer_start_time : ℚ
deriving DecidableEq, Repr

/-- Disconnect handler of `stream_audio` (main.py lines 1792-1889), in
source order: (1) if `last_processed_segment` is pending, persist and push
it; (2) if the speaker identifier's internal `audio_buffer` is non-empty,
run `process_audio_chunk` on it and persist-and-push each returned segment
directly (no merge loop), then clear that buffer.  The chunker's own
buffer is never consulted. -/
def onDisconnect (recognize : Recognizer) (dbOk : RawSegment → Bool)
    (st : SessionState) (rec : RecognizerState) :
    List Event × SessionState × RecognizerState :=
  let ev1 := match st.last_processed_segment with
    | none => []
    | some p => persistPush dbOk p
  if 0 < rec.audio_buffer.length then
    let segs := (recognize rec.audio_buffer rec.buffer_start_time).getD []
    (ev1 ++ Event.recognized rec.audio_buffer rec.buffer_start_time ::
       emitTurns dbOk segs,
     st, { rec with audio_buffer := [] })
  else (ev1, st, rec)

/-- Consolidation over the per-window segment lists of a whole session:
each window's list goes through the merge loop and its finalized segments
are emitted; `last_processed_segment` persists across windows. -/
def runConsolidation (tol : ℚ) (dbOk : RawSegment → Bool) :
    Option RawSegment → List (List RawSegment) → Option RawSegment × List Event
  | pend, [] => (pend, [])
  | pend, segs :: rest =>
    let r := consolidate tol pend segs
    let r2 := runConsolidation tol dbOk r.2 rest
    (r2.1, emitTurns dbOk r.1 ++ r2.2)

/-- Whole-session emission trace: the per-window consolidation and
emission, then the disconnect-time push of the final pending segment. -/
def runSession (tol : ℚ) (dbOk : RawSegment → Bool)
    (calls : List (List RawSegment)) : List Event :=
  let r := runConsolidation tol dbOk none calls
  r.2 ++ (match r.1 with | none => [] | some p => persistPush dbOk p)

/-- All turns finalized over a session, in finalization order, the
end-of-session flush of the pending turn included. -/
def finalizedAll (tol : ℚ) (calls : List (List RawSegment)) :
    List RawSegment :=
  let r := consolidate tol none calls.flatten
  r.1 ++ r.2.toList

/-- Projection of an event trace onto the turns pushed to the client. -/
def pushedOf : List Event → List RawSegment
  | [] => []
  | Event.pushed t :: es => t :: pushedOf es
  | _ :: es => pushedOf es

/-- Projection of an event trace onto the turns successfully persisted. -/
def savedOf : List Event → List RawSegment
  | [] => []
  | Event.dbSaved t :: es => t :: savedOf es
  | _ :: es => savedOf es

/-- Chronological ordering of a segment list: each segment starts no
earlier than the previous one ends (the recognizer's output for
sequential audio). -/
def chronologicallyOrdered (l : List RawSegment) : Prop :=
  List.Chain' (fun a b => a.end_time ≤ b.start_time) l

section Lemmas

/-- Splitting a trace splits its pushed-turn projection. -/
lemma pushedOf_append (es fs : List Event) :
    pushedOf (es ++ fs) = pushedOf es ++ pushedOf fs := by
  induction es with
  | nil => rfl
  | cons e es ih => cases e <;> simp [pushedOf, ih]

/-- Splitting a trace splits its persisted-turn projection. -/
lemma savedOf_append (es fs : List Event) :
    savedOf (es ++ fs) = savedOf es ++ savedOf fs := by
  induction es with
  | nil => rfl
  | cons e es ih => cases e <;> simp [savedOf, ih]

/-- Emitting a list of finalized turns pushes exactly those turns, in
order, whatever the database outcomes. -/
lemma pushedOf_emitTurns (dbOk : RawSegment → Bool) (ts : List RawSegment) :
    pushedOf (emitTurns dbOk ts) = ts := by
  induction ts with
  | nil => rfl
  | cons t ts ih =>
    by_cases h : dbOk t <;>
      simp [emitTurns, persistPush, h, pushedOf, pushedOf_append] at ih ⊢ <;>
      simpa [emitTurns] using ih

/-- With successful commits, emission persists exactly the finalized
turns, in order. -/
lemma savedOf_emitTurns (ts : List RawSegment) :
    savedOf (emitTurns (fun _ => true) ts) = ts := by
  induction ts with
  | nil => rfl
  | cons t ts ih =>
    simp [emitTurns, persistPush, savedOf, savedOf_append] at ih ⊢
    simpa [emitTurns] using ih

/-- The merge-loop fold only ever appends to the finalized accumulator,
and the carried pending segment does not depend on the accumulator. -/
lemma consolidate_acc (tol : ℚ) (segs : List RawSegment) :
    ∀ (a : List RawSegment) (p : Option RawSegment),
      List.foldl (consolidateStep tol) (a, p) segs =
        (a ++ (consolidate tol p segs).1, (consolidate tol p segs).2) := by
  induction segs with
  | nil => intro a p; simp [consolidate]
  | cons s rest ih =>
    intro a p
    have hstep : ∀ a' : List RawSegment,
        consolidateStep tol (a', p) s =
          (a' ++ (consolidateStep tol ([], p) s).1,
           (consolidateStep tol ([], p) s).2) := by
      intro a'
      cases p with
      | none => simp [consolidateStep]
      | some cur =>
        simp only [consolidateStep]
        by_cases h : s.speaker = cur.speaker ∧ s.start_time - cur.end_time ≤ tol
        · rw [if_pos h, if_pos h]; simp
        · rw [if_neg h, if_neg h]; simp
    calc List.foldl (consolidateStep tol) (a, p) (s :: rest)
        = List.foldl (consolidateStep tol) (consolidateStep tol (a, p) s) rest := by
          simp
      _ = (a ++ (consolidateStep tol ([], p) s).1 ++
            (consolidate tol (consolidateStep tol ([], p) s).2 rest).1,
           (consolidate tol (consolidateStep tol ([], p) s).2 rest).2) := by
          rw [hstep a, ih]
      _ = (a ++ (consolidate tol p (s :: rest)).1,
           (consolidate tol p (s :: rest)).2) := by
          have : consolidate tol p (s :: rest) =
              ((consolidateStep tol ([], p) s).1 ++
                 (consolidate tol (consolidateStep tol ([], p) s).2 rest).1,
               (consolidate tol (consolidateStep tol ([], p) s).2 rest).2) := by
            show List.foldl (consolidateStep tol) (consolidateStep tol ([], p) s) rest = _
            rw [ih (consolidateStep tol ([], p) s).1 (consolidateStep tol ([], p) s).2]
          rw [this, List.append_assoc]

/-- The merge loop over a concatenation of segment lists: finalized turns
concatenate and the pending segment threads through. -/
lemma consolidate_append (tol : ℚ) (p : Option RawSegment)
    (xs ys : List RawSegment) :
    consolidate tol p (xs ++ ys) =
      ((consolidate tol p xs).1 ++
         (consolidate tol (consolidate tol p xs).2 ys).1,
       (consolidate tol (consolidate tol p xs).2 ys).2) := by
  show List.foldl (consolidateStep tol) ([], p) (xs ++ ys) = _
  rw [List.foldl_append]
  show List.foldl (consolidateStep tol) (consolidate tol p xs) ys = _
  rw [show (consolidate tol p xs) =
        ((consolidate tol p xs).1, (consolidate tol p xs).2) from rfl,
      consolidate_acc]

/-- Each extraction-loop iteration splits the buffer with take/drop, so
the consumed windows followed by the remaining buffer reassemble it. -/
lemma drainFuel_conservation (sr cs : ℕ) (th : ℚ) :
    ∀ (fuel : ℕ) (b : List ℚ),
      (drainFuel sr cs th fuel b).2.1.flatten ++
        (drainFuel sr cs th fuel b).2.2 = b := by
  intro fuel
  induction fuel with
  | zero => intro b; simp [drainFuel]
  | succ n ih =>
    intro b
    simp only [drainFuel]
    by_cases h : 0 < cs ∧ cs ≤ b.length
    · rw [if_pos h]
      cases hs : is_silence th (b.take cs) <;>
        simp [hs, ih, List.take_append_drop]
    · rw [if_neg h]; simp

/-- Conservation for a full run of the extraction loop. -/
lemma drainLoop_conservation (sr cs : ℕ) (th : ℚ) (b : List ℚ) :
    (drainLoop sr cs th b).2.1.flatten ++ (drainLoop sr cs th b).2.2 = b :=
  drainFuel_conservation sr cs th b.length b

/-- Conservation across a whole sequence of feed calls. -/
lemma process_audio_stream_conservation (sr cs : ℕ) (th : ℚ)
    (chunks : List (List ℚ)) :
    ∀ b : List ℚ,
      (process_audio_stream sr cs th b chunks).2.1.flatten ++
        (process_audio_stream sr cs th b chunks).2.2 = b ++ chunks.flatten := by
  induction chunks with
  | nil => intro b; simp [process_audio_stream]
  | cons c rest ih =>
    intro b
    simp only [process_audio_stream, List.flatten_cons, List.flatten_append]
    rw [List.append_assoc, ih, ← List.append_assoc, drainLoop_conservation]
    simp

/-- Feeding more chunks extends the yields and consumed windows of the
earlier feeds, continuing from the buffer they left. -/
lemma process_audio_stream_append (sr cs : ℕ) (th : ℚ)
    (xs ys : List (List ℚ)) :
    ∀ b : List ℚ,
      process_audio_stream sr cs th b (xs ++ ys) =
        ((process_audio_stream sr cs th b xs).1 ++
           (process_audio_stream sr cs th
              (process_audio_stream sr cs th b xs).2.2 ys).1,
         (process_audio_stream sr cs th b xs).2.1 ++
           (process_audio_stream sr cs th
              (process_audio_stream sr cs th b xs).2.2 ys).2.1,
         (process_audio_stream sr cs th
            (process_audio_stream sr cs th b xs).2.2 ys).2.2) := by
  induction xs with
  | nil => intro b; simp [process_audio_stream]
  | cons c rest ih =>
    intro b
    simp [process_audio_stream, ih, List.append_assoc]

end Lemmas

/-- C1.  Window timing determinism fails in the code: the source computes
`start_time = buffer_size_after_trim / sample_rate` from the buffer that
REMAINS after extracting the window (audio_processor.py line 169), not from
the samples consumed before it.  With `sampleRate = 1`, `chunkSize = 2`
(window duration `D = 2` seconds) and four voiced samples (`k = 2`), one
feed call yields the `(startTime, endTime)` pairs `[(2,4), (0,2)]` and two
feed calls of one window each yield `[(0,2), (0,2)]`: the two partitions
disagree, and neither equals the claimed `[(0,2), (2,4)]`. -/
theorem C1_code_behavior :
    (process_audio_stream 1 2 (1/100) [] [[1,1,1,1]]).1.map
        (fun y => (y.start_time, y.end_time)) = [((2 : ℚ), (4 : ℚ)), (0, 2)] ∧
    (process_audio_stream 1 2 (1/100) [] [[1,1],[1,1]]).1.map
        (fun y => (y.start_time, y.end_time)) = [((0 : ℚ), (2 : ℚ)), (0, 2)] ∧
    (process_audio_stream 1 2 (1/100) [] [[1,1,1,1]]).1.map
        (fun y => (y.start_time, y.end_time)) ≠
      (process_audio_stream 1 2 (1/100) [] [[1,1],[1,1]]).1.map
        (fun y => (y.start_time, y.end_time)) ∧
    (process_audio_stream 1 2 (1/100) [] [[1,1,1,1]]).1.map
        (fun y => (y.start_time, y.end_time)) ≠ [((0 : ℚ), (2 : ℚ)), (2, 4)] := by
  refine ⟨?_, ?_, ?_, ?_⟩ <;>
    norm_num [process_audio_stream, drainLoop, drainFuel, is_silence, maxAbs]

/-- C2.  Silence timestamp continuity fails in the code: with
`sampleRate = 1`, `chunkSize = 2` (`D = 2`) and three consecutive full
windows of which the middle one is silence, the silent window is fully
consumed from the buffer and never yielded, but `meeting_audio_time`
(main.py line 1782) advances only for yielded windows, so the session loop
passes the recognizer `absStart = 2 = D` for the third window instead of
the claimed `2·D = 4`. -/
theorem C2_code_behavior :
    (drainLoop 1 2 (1/100) [1,1,0,0,1,1]).2.1 = [[1,1],[0,0],[1,1]] ∧
    (drainLoop 1 2 (1/100) [1,1,0,0,1,1]).2.2 = [] ∧
    (drainLoop 1 2 (1/100) [1,1,0,0,1,1]).1.map (fun y => y.window) =
      [[1,1],[1,1]] ∧
    (feedSamples 1 2 (1/100) (1/10) (fun _ _ => some []) (fun _ => true)
        initialSession [1,1,0,0,1,1]).2 =
      [Event.recognized [1,1] 0, Event.recognized [1,1] 2] ∧
    Event.recognized [1,1] 4 ∉
      (feedSamples 1 2 (1/100) (1/10) (fun _ _ => some []) (fun _ => true)
        initialSession [1,1,0,0,1,1]).2 := by
  refine ⟨?_, ?_, ?_, ?_, ?_⟩ <;>
    norm_num [feedSamples, drainLoop, drainFuel, is_silence, maxAbs,
      initialSession, processWindows, processWindow, consolidate, emitTurns]

/-- C3.  The consolidation step: a segment seeds the pending turn when
none is pending; it is merged (text appended with a space separator,
end time extended) exactly when its speaker equals the pending turn's
speaker and its start time minus the pending end time is within the
tolerance; otherwise it finalizes the pending turn and replaces it.  In
particular the segments ("A",0,1,"hi"), ("A",1.05,2,"there"),
("B",2,3,"yo") with tolerance 0.1, submitted across two calls followed by
a trailing flush, produce exactly the finalized turns ("A",0,2,"hi there")
and ("B",2,3,"yo"). -/
theorem C3_merge_rule (tol : ℚ) (acc : List RawSegment) (cur s : RawSegment)
    (hsp : s.speaker = cur.speaker) (hgap : s.start_time - cur.end_time ≤ tol) :
    consolidateStep tol (acc, none) s = (acc, some s) ∧
    consolidateStep tol (acc, some cur) s =
      (acc, some { cur with text := cur.text ++ " " ++ s.text,
                            end_time := s.end_time }) ∧
    (∀ cur' s' : RawSegment,
      ¬ (s'.speaker = cur'.speaker ∧ s'.start_time - cur'.end_time ≤ tol) →
      consolidateStep tol (acc, some cur') s' = (acc ++ [cur'], some s')) ∧
    (let c1 := consolidate (1/10) none [⟨"A", 0, 1, "hi"⟩]
     let c2 := consolidate (1/10) c1.2
       [⟨"A", 21/20, 2, "there"⟩, ⟨"B", 2, 3, "yo"⟩]
     c1.1 ++ c2.1 ++ c2.2.toList =
       [⟨"A", 0, 2, "hi there"⟩, ⟨"B", 2, 3, "yo"⟩]) := by
  refine ⟨by simp [consolidateStep], ?_, ?_, ?_⟩
  · simp only [consolidateStep]
    rw [if_pos ⟨hsp, hgap⟩]
  · intro cur' s' h
    simp only [consolidateStep]
    rw [if_neg h]
  · norm_num [consolidate, consolidateStep]
    simp

/-- C3 witness: the merge case at the claim's own data. -/
theorem C3_merge_rule_witness :
    consolidateStep (1/10) ([], some ⟨"A", 0, 1, "hi"⟩)
        ⟨"A", 21/20, 2, "there"⟩ =
      ([], some ⟨"A", 0, 2, "hi" ++ " " ++ "there"⟩) :=
  (C3_merge_rule (1/10) [] ⟨"A", 0, 1, "hi"⟩ ⟨"A", 21/20, 2, "there"⟩ rfl
    (by norm_num)).2.1

/-- C5.  Buffer conservation: over any sequence of feed calls, the
concatenation of all extracted windows (voiced or silent) followed by the
remaining buffer is exactly the initial buffer followed by all fed
samples — no sample dropped or duplicated; consequently consumed plus
remaining counts add up to the total, and the cumulative consumed count
only grows as further feeds happen. -/
theorem C5_buffer_conservation (sr cs : ℕ) (th : ℚ) (b : List ℚ)
    (chunks more : List (List ℚ)) :
    (process_audio_stream sr cs th b chunks).2.1.flatten ++
        (process_audio_stream sr cs th b chunks).2.2 = b ++ chunks.flatten ∧
    ((process_audio_stream sr cs th b chunks).2.1.map List.length).sum +
        (process_audio_stream sr cs th b chunks).2.2.length
      = b.length + ((chunks.map List.length).sum) ∧
    ((process_audio_stream sr cs th b chunks).2.1.map List.length).sum ≤
      ((process_audio_stream sr cs th b (chunks ++ more)).2.1.map
        List.length).sum := by
  refine ⟨process_audio_stream_conservation sr cs th chunks b, ?_, ?_⟩
  · have h := congrArg List.length
      (process_audio_stream_conservation sr cs th chunks b)
    simpa [List.length_append, List.length_flatten] using h
  · rw [process_audio_stream_append]
    simp

/-- C7.  Malformed packet tolerance: a packet whose byte length is not a
multiple of 4 is skipped — session state (chunker buffer included) is
unchanged, no event is produced, and the loop behaves exactly as if the
packet had never arrived. -/
theorem C7_malformed_packet (sr cs : ℕ) (th tol : ℚ) (recognize : Recognizer)
    (dbOk : RawSegment → Bool) (decode : List ℕ → List ℚ) (st : SessionState)
    (data : List ℕ) (rest : List (List ℕ)) (h : data.length % 4 ≠ 0) :
    handlePacket sr cs th tol recognize dbOk decode st data = (st, []) ∧
    runPackets sr cs th tol recognize dbOk decode st (data :: rest) =
      runPackets sr cs th tol recognize dbOk decode st rest := by
  refine ⟨by simp [handlePacket, h], ?_⟩
  simp [runPackets, handlePacket, h]

/-- C7 witness: a three-byte packet is dropped. -/
theorem C7_malformed_packet_witness :
    handlePacket 1 2 0 0 (fun _ _ => none) (fun _ => true) (fun _ => [])
        initialSession [0, 0, 0] = (initialSession, []) ∧
    runPackets 1 2 0 0 (fun _ _ => none) (fun _ => true) (fun _ => [])
        initialSession [[0, 0, 0]] =
      runPackets 1 2 0 0 (fun _ _ => none) (fun _ => true) (fun _ => [])
        initialSession [] :=
  C7_malformed_packet 1 2 0 0 (fun _ _ => none) (fun _ => true) (fun _ => [])
    initialSession [0, 0, 0] [] (by norm_num)

/-- C8.  Recognizer failure containment: when the recognizer raises for a
window, the window contributes zero segments — the pending turn is
untouched, nothing is emitted, `meeting_audio_time` still advances by the
window's duration, and subsequent windows are processed from that state
exactly as usual. -/
theorem C8_recognizer_failure (tol : ℚ) (recognize : Recognizer)
    (dbOk : RawSegment → Bool) (st : ℚ × Option RawSegment) (y : Yielded)
    (ys : List Yielded) (hfail : recognize y.window st.1 = none) :
    processWindow tol recognize dbOk st y =
      ((st.1 + (y.end_time - y.start_time), st.2),
       [Event.recognized y.window st.1]) ∧
    processWindows tol recognize dbOk st (y :: ys) =
      ((processWindows tol recognize dbOk
          (st.1 + (y.end_time - y.start_time), st.2) ys).1,
       Event.recognized y.window st.1 ::
         (processWindows tol recognize dbOk
            (st.1 + (y.end_time - y.start_time), st.2) ys).2) := by
  have h1 : processWindow tol recognize dbOk st y =
      ((st.1 + (y.end_time - y.start_time), st.2),
       [Event.recognized y.window st.1]) := by
    simp [processWindow, hfail, consolidate, emitTurns]
  exact ⟨h1, by simp [processWindows, h1]⟩

/-- C8 witness: a failing recognizer call on a concrete window. -/
theorem C8_recognizer_failure_witness :
    processWindow 0 (fun _ _ => none) (fun _ => true) (0, none) ⟨[1], 0, 1⟩ =
      ((0 + ((1 : ℚ) - 0), none), [Event.recognized [1] 0]) ∧
    processWindows 0 (fun _ _ => none) (fun _ => true) (0, none)
        [⟨[1], 0, 1⟩] =
      ((processWindows 0 (fun _ _ => none) (fun _ => true)
          (0 + ((1 : ℚ) - 0), none) []).1,
       Event.recognized [1] 0 ::
         (processWindows 0 (fun _ _ => none) (fun _ => true)
            (0 + ((1 : ℚ) - 0), none) []).2) :=
  C8_recognizer_failure 0 (fun _ _ => none) (fun _ => true) (0, none)
    ⟨[1], 0, 1⟩ [] rfl

/-- C9.  Persistence-failure decoupling: a failed commit for a finalized
turn is rolled back and the turn is still pushed; every finalized turn is
pushed whatever the database outcomes; and the session-state evolution of
the window loop is identical whatever the database outcomes. -/
theorem C9_persistence_decoupling (dbOk : RawSegment → Bool) (t : RawSegment)
    (ts : List RawSegment) (tol : ℚ) (recognize : Recognizer)
    (st : ℚ × Option RawSegment) (ys : List Yielded)
    (hdb : dbOk t = false) :
    emitTurns dbOk (t :: ts) =
      Event.dbRollback t :: Event.pushed t :: emitTurns dbOk ts ∧
    (∀ ts' : List RawSegment, pushedOf (emitTurns dbOk ts') = ts') ∧
    (processWindows tol recognize dbOk st ys).1 =
      (processWindows tol recognize (fun _ => true) st ys).1 := by
  refine ⟨by simp [emitTurns, persistPush, hdb], pushedOf_emitTurns dbOk, ?_⟩
  induction ys generalizing st with
  | nil => rfl
  | cons y ys ih => simp [processWindows, processWindow, ih]

/-- C9 witness: one turn whose commit fails. -/
theorem C9_persistence_decoupling_witness :
    emitTurns (fun _ => false) [⟨"A", 0, 1, "x"⟩] =
      Event.dbRollback ⟨"A", 0, 1, "x"⟩ ::
        Event.pushed ⟨"A", 0, 1, "x"⟩ :: emitTurns (fun _ => false) [] ∧
    (∀ ts' : List RawSegment,
      pushedOf (emitTurns (fun _ => false) ts') = ts') ∧
    (processWindows 0 (fun _ _ => some []) (fun _ => false) (0, none) []).1 =
      (processWindows 0 (fun _ _ => some []) (fun _ => true) (0, none) []).1 :=
  C9_persistence_decoupling (fun _ => false) ⟨"A", 0, 1, "x"⟩ [] 0
    (fun _ _ => some []) (0, none) [] rfl

/-- C10.  Unconditional merge separator: whenever the merge condition
holds, the pending text is extended with exactly one space followed by the
segment's text, with no test on the content; merging an empty-text segment
therefore appends exactly one space and still extends the end time. -/
theorem C10_merge_separator (tol : ℚ) (acc : List RawSegment)
    (cur s : RawSegment) (hsp : s.speaker = cur.speaker)
    (hgap : s.start_time - cur.end_time ≤ tol) :
    consolidateStep tol (acc, some cur) s =
      (acc, some { cur with text := cur.text ++ " " ++ s.text,
                            end_time := s.end_time }) ∧
    (s.text = "" →
      consolidateStep tol (acc, some cur) s =
        (acc, some { cur with text := cur.text ++ " ",
                              end_time := s.end_time })) := by
  have h1 : consolidateStep tol (acc, some cur) s =
      (acc, some { cur with text := cur.text ++ " " ++ s.text,
                            end_time := s.end_time }) := by
    simp only [consolidateStep]
    rw [if_pos ⟨hsp, hgap⟩]
  refine ⟨h1, fun he => ?_⟩
  rw [h1, he]
  simp

/-- C10 witness: merging an empty-text segment. -/
theorem C10_merge_separator_witness :
    consolidateStep (1/10) ([], some ⟨"A", 0, 1, "hi"⟩) ⟨"A", 1, 2, ""⟩ =
      ([], some ⟨"A", 0, 2, "hi" ++ " "⟩) :=
  (C10_merge_separator (1/10) [] ⟨"A", 0, 1, "hi"⟩ ⟨"A", 1, 2, ""⟩ rfl
    (by norm_num)).2 rfl

section ConsolidationLemmas

/-- Running consolidation call-by-call equals consolidating the flattened
segment stream: the pending segment threads through and the pushed turns
are exactly the finalized ones, in order. -/
lemma runConsolidation_spec (tol : ℚ) (dbOk : RawSegment → Bool)
    (calls : List (List RawSegment)) :
    ∀ p : Option RawSegment,
      (runConsolidation tol dbOk p calls).1 =
        (consolidate tol p calls.flatten).2 ∧
      pushedOf (runConsolidation tol dbOk p calls).2 =
        (consolidate tol p calls.flatten).1 := by
  induction calls with
  | nil => intro p; simp [runConsolidation, consolidate, pushedOf]
  | cons c rest ih =>
    intro p
    simp only [runConsolidation, List.flatten_cons]
    rw [consolidate_append]
    exact ⟨(ih (consolidate tol p c).2).1,
      by rw [pushedOf_append, pushedOf_emitTurns,
             (ih (consolidate tol p c).2).2]⟩

/-- With successful commits the persisted turns are also exactly the
finalized ones, in order. -/
lemma runConsolidation_saved (tol : ℚ) (calls : List (List RawSegment)) :
    ∀ p : Option RawSegment,
      savedOf (runConsolidation tol (fun _ => true) p calls).2 =
        (consolidate tol p calls.flatten).1 := by
  induction calls with
  | nil => intro p; simp [runConsolidation, consolidate, savedOf]
  | cons c rest ih =>
    intro p
    simp only [runConsolidation, List.flatten_cons]
    rw [consolidate_append, savedOf_append, savedOf_emitTurns,
        ih (consolidate tol p c).2]

/-- Invariant of the merge loop: on a chronologically ordered segment
stream, the finalized turns followed by the pending one form a
chronologically ordered sequence.  `fs` is the context of turns already
finalized before this run, `pend` the carried pending turn. -/
lemma consolidate_chain_aux (tol : ℚ) :
    ∀ (segs fs : List RawSegment) (pend : Option RawSegment),
      chronologicallyOrdered segs →
      List.Chain' (fun a b : RawSegment => a.end_time ≤ b.start_time)
        (fs ++ pend.toList) →
      (pend = none → fs = []) →
      (∀ p s, pend = some p → segs.head? = some s →
        p.end_time ≤ s.start_time) →
      List.Chain' (fun a b : RawSegment => a.end_time ≤ b.start_time)
        (fs ++ (consolidate tol pend segs).1 ++
          (consolidate tol pend segs).2.toList) := by
  intro segs
  induction segs with
  | nil =>
    intro fs pend h1 h2 h3 h4
    simpa [consolidate] using h2
  | cons s rest ih =>
    intro fs pend h1 h2 h3 h4
    have hrest : chronologicallyOrdered rest :=
      (List.chain'_cons'.mp h1).2
    have hhead : ∀ b, rest.head? = some b → s.end_time ≤ b.start_time :=
      fun b hb => (List.chain'_cons'.mp h1).1 b hb
    cases pend with
    | none =>
      have hfs : fs = [] := h3 rfl
      subst hfs
      have hc : consolidate tol none (s :: rest) =
          consolidate tol (some s) rest := by
        simp [consolidate, consolidateStep]
      rw [hc]
      have := ih [] (some s) hrest (by simp)
        (by intro h; cases h)
        (by intro p s' hp hs'; cases hp; exact hhead s' hs')
      simpa using this
    | some cur =>
      by_cases hcond : s.speaker = cur.speaker ∧
          s.start_time - cur.end_time ≤ tol
      · have hc : consolidate tol (some cur) (s :: rest) =
            consolidate tol
              (some { cur with text := cur.text ++ " " ++ s.text,
                               end_time := s.end_time }) rest := by
          show List.foldl (consolidateStep tol)
              (consolidateStep tol ([], some cur) s) rest = _
          simp only [consolidateStep]
          rw [if_pos hcond]
          rfl
        rw [hc]
        apply ih fs _ hrest
        · simp only [Option.toList_some] at h2 ⊢
          rw [List.chain'_append] at h2 ⊢
          exact ⟨h2.1, List.chain'_singleton _,
            fun x hx y hy => by
              simp only [List.head?_cons, Option.mem_def, Option.some.injEq] at hy
              subst hy
              exact h2.2.2 x hx cur rfl⟩
        · intro h; cases h
        · intro p s' hp hs'
          cases hp
          exact hhead s' hs'
      · have hc : consolidate tol (some cur) (s :: rest) =
            (cur :: (consolidate tol (some s) rest).1,
             (consolidate tol (some s) rest).2) := by
          show List.foldl (consolidateStep tol)
              (consolidateStep tol ([], some cur) s) rest = _
          simp only [consolidateStep]
          rw [if_neg hcond]
          rw [show (([] : List RawSegment) ++ [cur], some s) =
                (([cur] : List RawSegment), some s) by simp]
          rw [show List.foldl (consolidateStep tol) ([cur], some s) rest =
                ([cur] ++ (consolidate tol (some s) rest).1,
                 (consolidate tol (some s) rest).2) from
              consolidate_acc tol rest [cur] (some s)]
          simp
        rw [hc]
        have heq : fs ++ (cur :: (consolidate tol (some s) rest).1) ++
              (consolidate tol (some s) rest).2.toList
            = (fs ++ [cur]) ++ (consolidate tol (some s) rest).1 ++
              (consolidate tol (some s) rest).2.toList := by
          simp
        rw [heq]
        apply ih (fs ++ [cur]) (some s) hrest
        · simp only [Option.toList_some] at h2 ⊢
          rw [List.chain'_append]
          refine ⟨h2, List.chain'_singleton _, fun x hx y hy => ?_⟩
          simp only [List.head?_cons, Option.mem_def, Option.some.injEq] at hy
          subst hy
          rw [List.getLast?_concat] at hx
          simp only [Option.mem_def, Option.some.injEq] at hx
          subst hx
          exact h4 cur s rfl rfl
        · intro h; cases h
        · intro p s' hp hs'
          cases hp
          exact hhead s' hs'

end ConsolidationLemmas

/-- C6.  Monotonic consolidation order: over a chronologically ordered
stream of recognizer segments (each segment starting no earlier than the
previous one ends), the turns pushed to the client over the session —
final flush included — are exactly the finalized turns in finalization
order, the persisted turns (under successful commits) likewise, and every
finalized turn starts no earlier than the preceding one ends. -/
theorem C6_monotonic_order (tol : ℚ) (dbOk : RawSegment → Bool)
    (calls : List (List RawSegment))
    (h : chronologicallyOrdered calls.flatten) :
    pushedOf (runSession tol dbOk calls) = finalizedAll tol calls ∧
    savedOf (runSession tol (fun _ => true) calls) = finalizedAll tol calls ∧
    List.Chain' (fun a b : RawSegment => a.end_time ≤ b.start_time)
      (finalizedAll tol calls) := by
  refine ⟨?_, ?_, ?_⟩
  · rw [runSession, pushedOf_append, (runConsolidation_spec tol dbOk calls none).2,
        (runConsolidation_spec tol dbOk calls none).1]
    cases hdbp : (consolidate tol none calls.flatten).2 with
    | none => simp [finalizedAll, hdbp, pushedOf]
    | some p =>
      cases hdb : dbOk p <;>
        simp [finalizedAll, hdbp, persistPush, hdb, pushedOf, pushedOf_append]
  · rw [runSession, savedOf_append, runConsolidation_saved tol calls none,
        (runConsolidation_spec tol (fun _ => true) calls none).1]
    cases hdbp : (consolidate tol none calls.flatten).2 with
    | none => simp [finalizedAll, hdbp, savedOf]
    | some p => simp [finalizedAll, hdbp, persistPush, savedOf, savedOf_append]
  · have := consolidate_chain_aux tol calls.flatten [] none h
      (by simp) (fun _ => rfl) (by intro p s hp; cases hp)
    simpa [finalizedAll] using this

/-- C6 witness: two chronologically ordered single-segment windows. -/
theorem C6_monotonic_order_witness :
    pushedOf (runSession 0 (fun _ => true)
        [[⟨"A", 0, 1, "a"⟩], [⟨"B", 2, 3, "b"⟩]]) =
      finalizedAll 0 [[⟨"A", 0, 1, "a"⟩], [⟨"B", 2, 3, "b"⟩]] ∧
    savedOf (runSession 0 (fun _ => true)
        [[⟨"A", 0, 1, "a"⟩], [⟨"B", 2, 3, "b"⟩]]) =
      finalizedAll 0 [[⟨"A", 0, 1, "a"⟩], [⟨"B", 2, 3, "b"⟩]] ∧
    List.Chain' (fun a b : RawSegment => a.end_time ≤ b.start_time)
      (finalizedAll 0 [[⟨"A", 0, 1, "a"⟩], [⟨"B", 2, 3, "b"⟩]]) :=
  C6_monotonic_order 0 (fun _ => true)
    [[⟨"A", 0, 1, "a"⟩], [⟨"B", 2, 3, "b"⟩]]
    (by norm_num [chronologicallyOrdered])

/-- C4 counterexample: a session state whose chunker buffer holds a
non-empty voiced partial window (one sample, below the two-sample
full-window threshold in force) and whose pending turn is set, with a
recognizer that would return a segment for any window.  The disconnect
sequence emits only the pending turn's persist-and-push — no recognizer
invocation occurs, nothing derived from the buffered partial window is
consolidated or emitted, and the chunker buffer is left undrained — while
the claim demands the partial window be force-drained through the silence
test, the recognizer and the consolidation step before the pending turn
is finalized. -/
theorem C4_counterexample :
    (onDisconnect (fun _ t => some [⟨"B", t, t + 1, "tail"⟩]) (fun _ => true)
        ⟨[1], 10, some ⟨"A", 0, 9, "hello"⟩⟩ ⟨[], 0⟩).1 =
      [Event.dbSaved ⟨"A", 0, 9, "hello"⟩,
       Event.pushed ⟨"A", 0, 9, "hello"⟩] ∧
    (⟨[1], 10, some ⟨"A", 0, 9, "hello"⟩⟩ : SessionState).buffer ≠ [] ∧
    (⟨[1], 10, some ⟨"A", 0, 9, "hello"⟩⟩ : SessionState).buffer.length < 2 ∧
    is_silence (1/100)
      (⟨[1], 10, some ⟨"A", 0, 9, "hello"⟩⟩ : SessionState).buffer = false ∧
    (onDisconnect (fun _ t => some [⟨"B", t, t + 1, "tail"⟩]) (fun _ => true)
        ⟨[1], 10, some ⟨"A", 0, 9, "hello"⟩⟩ ⟨[], 0⟩).2.1.buffer = [1] := by
  refine ⟨?_, ?_, ?_, ?_, ?_⟩ <;>
    norm_num [onDisconnect, persistPush, emitTurns, is_silence, maxAbs]

/-- C4 as amended: on disconnect the pending turn is persisted and pushed
FIRST; then, when the recognizer's internal audio buffer is non-empty,
that buffer — not the chunker's buffered partial window — is run through
the recognizer and its segments are each persisted and pushed directly,
bypassing the consolidation step; the session state (the chunker's
buffered partial window included) is left untouched and the recognizer's
buffer is cleared. -/
theorem C4_drain_behavior (recognize : Recognizer) (dbOk : RawSegment → Bool)
    (st : SessionState) (ri : RecognizerState) (p : RawSegment)
    (segs : List RawSegment)
    (hp : st.last_processed_segment = some p)
    (hb : recognize ri.audio_buffer ri.buffer_start_time = some segs)
    (hne : ri.audio_buffer ≠ []) :
    (onDisconnect recognize dbOk st ri).1 =
      persistPush dbOk p ++
        Event.recognized ri.audio_buffer ri.buffer_start_time ::
          emitTurns dbOk segs ∧
    pushedOf (onDisconnect recognize dbOk st ri).1 = p :: segs ∧
    (onDisconnect recognize dbOk st ri).2.1 = st ∧
    (onDisconnect recognize dbOk st ri).2.2.audio_buffer = [] := by
  have hlen : 0 < ri.audio_buffer.length := List.length_pos.mpr hne
  have hmain : onDisconnect recognize dbOk st ri =
      (persistPush dbOk p ++
         Event.recognized ri.audio_buffer ri.buffer_start_time ::
           emitTurns dbOk segs,
       st, { ri with audio_buffer := [] }) := by
    simp only [onDisconnect, hp, hb]
    rw [if_pos hlen]
    rfl
  refine ⟨by rw [hmain], ?_, by rw [hmain], by rw [hmain]⟩
  rw [hmain, pushedOf_append]
  cases hdb : dbOk p <;>
    simp [persistPush, hdb, pushedOf, pushedOf_emitTurns]

/-- C4 witness: a concrete disconnect with a pending turn and a non-empty
recognizer buffer. -/
theorem C4_drain_behavior_witness :
    (onDisconnect (fun _ _ => some [⟨"B", 6, 7, "tail"⟩]) (fun _ => true)
        ⟨[1], 10, some ⟨"A", 0, 9, "hello"⟩⟩ ⟨[2], 6⟩).1 =
      persistPush (fun _ => true) ⟨"A", 0, 9, "hello"⟩ ++
        Event.recognized [2] 6 ::
          emitTurns (fun _ => true) [⟨"B", 6, 7, "tail"⟩] ∧
    pushedOf (onDisconnect (fun _ _ => some [⟨"B", 6, 7, "tail"⟩])
        (fun _ => true)
        ⟨[1], 10, some ⟨"A", 0, 9, "hello"⟩⟩ ⟨[2], 6⟩).1 =
      ⟨"A", 0, 9, "hello"⟩ :: [⟨"B", 6, 7, "tail"⟩] ∧
    (onDisconnect (fun _ _ => some [⟨"B", 6, 7, "tail"⟩]) (fun _ => true)
        ⟨[1], 10, some ⟨"A", 0, 9, "hello"⟩⟩ ⟨[2], 6⟩).2.1 =
      ⟨[1], 10, some ⟨"A", 0, 9, "hello"⟩⟩ ∧
    (onDisconnect (fun _ _ => some [⟨"B", 6, 7, "tail"⟩]) (fun _ => true)
        ⟨[1], 10, some ⟨"A", 0, 9, "hello"⟩⟩ ⟨[2], 6⟩).2.2.audio_buffer =
      [] :=
  C4_drain_behavior (fun _ _ => some [⟨"B", 6, 7, "tail"⟩]) (fun _ => true)
    ⟨[1], 10, some ⟨"A", 0, 9, "hello"⟩⟩ ⟨[2], 6⟩ ⟨"A", 0, 9, "hello"⟩
    [⟨"B", 6, 7, "tail"⟩] rfl rfl (by simp)

end AiMeeting
